import Mathlib

/-!
Verification of the natural-language specification of
`dig-text-similarity-search` against a shallow Lean embedding of its Python
sources.

The embedding covers:
* `dt_sim/processor/query_processor.py` — `QueryProcessor.query_corpus`,
  `aggregate_docs`, `format_payload_docs`, `format_payload_singles`;
* `dt_sim_api/processor/query_processor.py` — the older `aggregate_docs` and
  `format_payload`;
* `dt_sim/indexer/ivf_index_handlers.py` — `RangeShards.search`,
  `RangeShards.add_shard`, `DeployShards.add_shard`;
* `dt_sim/indexer/index_builder.py` — `OnDiskIVFBuilder.index_path_clear`,
  `generate_subindex`, `merge_IVFs` (the faiss `merge_from` core and
  `BaseIndexer.joint_sort` live outside `src/` and are modelled from the spec,
  as marked on their doc comments).

Modelling conventions: Python floats (faiss L2 distances) are embedded as `ℚ`;
numpy int64 ids as `ℤ`; Python strings as Lean `String` compared by code
points; Python dicts as insertion-ordered association lists; Python's stable
`sorted`/`list.sort` as `List.insertionSort` (the stable sort for a total
preorder, hence extensionally the same function as Python's Timsort).
-/

namespace DTS

/-! ### Python string comparison (lexicographic on code points) -/

/-- Python `<` on strings, on the underlying character lists: lexicographic by
code point, a proper prefix being smaller. -/
def lexLt : List Char → List Char → Bool
  | [], [] => false
  | [], _ :: _ => true
  | _ :: _, [] => false
  | a :: as, b :: bs => if a < b then true else if b < a then false else lexLt as bs

/-- Python `<=` on strings, on the underlying character lists. -/
def lexLe : List Char → List Char → Bool
  | [], _ => true
  | _ :: _, [] => false
  | a :: as, b :: bs => if a < b then true else if b < a then false else lexLe as bs

/-- Python `s1 <= s2` for `str` operands. -/
def pyStrLe (a b : String) : Bool :=
  lexLe a.data b.data

/-- Python `s1 < s2` for `str` operands. -/
def pyStrLt (a b : String) : Bool :=
  lexLt a.data b.data

/-- Propositional form of `pyStrLe`, used to state sortedness. -/
def PyLe (a b : String) : Prop :=
  pyStrLe a b = true

instance : DecidableRel PyLe := fun a b => by
  unfold PyLe; infer_instance

theorem lexLe_total : ∀ a b : List Char, lexLe a b = true ∨ lexLe b a = true
  | [], _ => Or.inl rfl
  | _ :: _, [] => Or.inr rfl
  | a :: as, b :: bs => by
    rcases lt_trichotomy a b with h | h | h
    · left; simp [lexLe, h]
    · subst h
      rcases lexLe_total as bs with ih | ih
      · left; simp [lexLe, ih]
      · right; simp [lexLe, ih]
    · right; simp [lexLe, h]

theorem lexLe_trans : ∀ a b c : List Char,
    lexLe a b = true → lexLe b c = true → lexLe a c = true
  | [], _, _ => by intro _ _; rfl
  | _ :: _, [], _ => by intro h _; simp [lexLe] at h
  | _ :: _, _ :: _, [] => by intro _ h; simp [lexLe] at h
  | a :: as, b :: bs, c :: cs => by
    intro hab hbc
    rcases lt_trichotomy a b with h1 | h1 | h1
    · rcases lt_trichotomy b c with h2 | h2 | h2
      · simp [lexLe, lt_trans h1 h2]
      · subst h2; simp [lexLe, h1]
      · simp [lexLe, h1, not_lt_of_lt h1] at hab ⊢
        simp [lexLe, h2, not_lt_of_lt h2] at hbc
    · subst h1
      rcases lt_trichotomy a c with h2 | h2 | h2
      · simp [lexLe, h2]
      · subst h2
        simp [lexLe, lt_irrefl] at hab hbc ⊢
        exact lexLe_trans as bs cs hab hbc
      · simp [lexLe, h2, not_lt_of_lt h2] at hbc
    · simp [lexLe, h1, not_lt_of_lt h1] at hab

theorem pyLe_total (a b : String) : PyLe a b ∨ PyLe b a :=
  lexLe_total a.data b.data

theorem pyLe_trans {a b c : String} (hab : PyLe a b) (hbc : PyLe b c) : PyLe a c :=
  lexLe_trans a.data b.data c.data hab hbc

/-! ### The ISO-date regex of the shard manager

`RangeShards` (ivf_index_handlers.py line 111) and the index builder extract
the first date substring of a shard name with `re.search` on the pattern
"4 digits, a dash-or-slash separator, 2 digits, separator, 2 digits".
The pattern is of fixed length 10, so `re.search` returns the leftmost
10-character window of that shape (the shard names are ASCII, so a regex
digit is modelled as `0`–`9`). -/

def isDig (c : Char) : Bool :=
  '0' ≤ c && c ≤ '9'

def isSep (c : Char) : Bool :=
  c = '-' || c = '/'

/-- Does the character list start with a match of the date pattern? -/
def dateMatch10 : List Char → Bool
  | y1 :: y2 :: y3 :: y4 :: s1 :: m1 :: m2 :: s2 :: d1 :: d2 :: _ =>
    isDig y1 && isDig y2 && isDig y3 && isDig y4 && isSep s1 &&
    isDig m1 && isDig m2 && isSep s2 && isDig d1 && isDig d2
  | _ => false

/-- Leftmost match of the date pattern, as `re.search(...)` finds it;
`none` models `re.search` returning `None`. -/
def findDateAux : List Char → Option (List Char)
  | [] => none
  | c :: rest =>
    if dateMatch10 (c :: rest) then some ((c :: rest).take 10)
    else findDateAux rest

/-- `re.search(date_seed, s)` followed by `.group()`; `none` is the `None`
case in which `.group()` raises `AttributeError`. -/
def findDate (s : String) : Option String :=
  (findDateAux s.data).map fun cs => String.mk cs

/-! ### Python `str.replace` and `str.endswith` -/

/-- Python `s.replace(pat, rep)`: left-to-right, non-overlapping replacement
of every occurrence.  (For the empty pattern Python interleaves `rep`
everywhere; the sources only ever pass the pattern `".index"`, so the model
returns the string unchanged in that degenerate case.) -/
def replaceAll (pat rep : List Char) : List Char → List Char
  | [] => []
  | c :: rest =>
    if pat ≠ [] ∧ pat.isPrefixOf (c :: rest) then
      rep ++ replaceAll pat rep (rest.drop (pat.length - 1))
    else
      c :: replaceAll pat rep rest
  termination_by s => s.length
  decreasing_by
  all_goals simp only [List.length_cons, List.length_drop]
  all_goals omega

/-- Python `s.replace(pat, rep)` on `str` operands. -/
def pyReplace (s pat rep : String) : String :=
  String.mk (replaceAll pat.data rep.data s.data)

/-- Python `s.endswith(suffix)`. -/
def pyEndsWith (s suffix : String) : Bool :=
  suffix.data.isSuffixOf s.data

/-! ### Python dicts as insertion-ordered association lists

Python dicts preserve insertion order; both query processors use dicts from
document-id keys to lists of hits, only ever appending to the list of an
existing key or installing a new key at the end. -/

/-- `docs[k]` for a dict of lists (empty when the key is absent; the sources
only read keys they have inserted). -/
def dictLookup {κ β : Type} [DecidableEq κ] (d : List (κ × List β)) (k : κ) : List β :=
  ((d.find? fun p => decide (p.1 = k)).map Prod.snd).getD []

/-- The idiom `if k not in docs: docs[k] = list()` followed by
`docs[k].append(e)`. -/
def pyDictAppend {κ β : Type} [DecidableEq κ] (d : List (κ × List β)) (k : κ) (e : β) :
    List (κ × List β) :=
  let d' := if d.any fun p => decide (p.1 = k) then d else d ++ [(k, [])]
  d'.map fun p => if p.1 = k then (p.1, p.2 ++ [e]) else p

/-- Python dict assignment `d[k] = v` (overwrite, or install at the end). -/
def pyDictInsert {κ β : Type} [DecidableEq κ] (d : List (κ × β)) (k : κ) (v : β) :
    List (κ × β) :=
  if d.any fun p => decide (p.1 = k) then
    d.map fun p => if p.1 = k then (k, v) else p
  else
    d ++ [(k, v)]

/-! ### `dt_sim/processor/query_processor.py` — `QueryProcessor`

Faiss search scores (L2 distances, numpy float32) are embedded as `ℚ`; the
Python `str(...)` rendering of a score is kept abstract as a parameter
`fmt : ℚ → String`, since every downstream comparison in this file operates
on the rendered strings.  Vector ids (numpy int64) are embedded as `ℤ`;
`str(faiss_id)` is `toString`.  `divmod(faiss_id, 10000)` is Euclidean
division (Python floor-divmod with a positive modulus). -/

namespace DtSim

/-- One `(str(diff_score), str(faiss_id))` pair of a document's hit list. -/
abbrev ScoreId := String × String

/-- The dict built by `aggregate_docs`: document-id string, hit list. -/
abbrev DocPayload := List (String × List ScoreId)

/-- `min_diff_cutoff(diff_score, cutoff=0.01)` of `dt_sim`'s
`aggregate_docs`: `str(max(diff_score, cutoff))`. -/
def min_diff_cutoff (fmt : ℚ → String) (diff_score : ℚ) (cutoff : ℚ) : String :=
  fmt (max diff_score cutoff)

/-- The check `all(sc_ids[i][0] <= sc_ids[i+1][0] for i in range(...))` of
`sort_score_ids`. -/
def chainLeBool : List ScoreId → Bool
  | [] => true
  | [_] => true
  | a :: b :: t => pyStrLe a.1 b.1 && chainLeBool (b :: t)

/-- `sort_score_ids`: if the list is not already sorted by score string,
stable-sort it by the score string (`list.sort(key=...)`). -/
def sort_score_ids (sc_ids : List ScoreId) : List ScoreId :=
  if chainLeBool sc_ids then sc_ids
  else sc_ids.insertionSort fun a b => PyLe a.1 b.1

/-- The accumulation loop of `aggregate_docs` (lines 118-125): for each
`(score, faiss_id)` with `faiss_id > 0`, append
`(min_diff_cutoff(score), str(faiss_id))` to `docs[str(faiss_id // 10000)]`. -/
def docs_agg (fmt : ℚ → String) (pairs : List (ℚ × ℤ)) : DocPayload :=
  pairs.foldl
    (fun docs si =>
      if 0 < si.2 then
        pyDictAppend docs (toString (si.2.ediv 10000))
          (min_diff_cutoff fmt si.1 (1 / 100), toString si.2)
      else docs)
    []

/-- The `require_unique_score` pass of `aggregate_docs` (lines 127-134): keep
only the first document per distinct sorted score list (the pickle hash of a
sorted list of score strings is injective, so the hash set is modelled by the
list of sorted score lists already seen), sorting each kept hit list. -/
def dedup_pass (docs : DocPayload) : DocPayload :=
  (docs.foldl
    (fun (acc : DocPayload × List (List String)) dl =>
      let h := (dl.2.map Prod.fst).insertionSort PyLe
      if h ∈ acc.2 then acc
      else (acc.1 ++ [(dl.1, sort_score_ids dl.2)], acc.2 ++ [h]))
    ([], [])).1

/-- `QueryProcessor.aggregate_docs(scores, faiss_ids, require_unique_score)`.
The Python code reads `scores[0]` and `faiss_ids[0]` (one query per call);
an empty outer list would raise `IndexError`, and the indexer always returns
singleton outer lists, so the model uses `headD []`. -/
def aggregate_docs (fmt : ℚ → String) (scores : List (List ℚ))
    (faiss_ids : List (List ℤ)) (require_unique_score : Bool) : DocPayload :=
  let docs := docs_agg fmt ((scores.headD []).zip (faiss_ids.headD []))
  if require_unique_score then dedup_pass docs
  else docs.map fun dl => (dl.1, sort_score_ids dl.2)

/-- One record of the `format_payload_docs` payload. -/
structure DocRecord where
  doc_id : String
  id_score_tups : List (String × String)
  score : String
deriving DecidableEq

/-- Python `min(...)` over a list of score strings.  `min` of an empty list
raises `ValueError`; `aggregate_docs` never produces an empty hit list
(claim C10), so the `[]` case is an arbitrary default. -/
def pyMinStr : List String → String
  | [] => ""
  | h :: t => t.foldl (fun acc x => if pyStrLt x acc then x else acc) h

/-- `QueryProcessor.format_payload_docs`: one record per document with the
hit list swapped to `(id, score)` order and `score = min(scores)`, the whole
payload stable-sorted by the `score` string. -/
def format_payload_docs (doc_hits : DocPayload) : List DocRecord :=
  (doc_hits.map fun dl =>
      { doc_id := dl.1
        id_score_tups := dl.2.map fun e => (e.2, e.1)
        score := pyMinStr (dl.2.map Prod.fst) : DocRecord }).insertionSort
    fun a b => PyLe a.score b.score

/-- One record of the `format_payload_singles` payload. -/
structure SingleRecord where
  doc_id : String
  score : String
  sentence_id : String
deriving DecidableEq

/-- `QueryProcessor.format_payload_singles`: the best hit `score_ids[0]` of
each document (never absent, by claim C10), payload stable-sorted by the
`score` string. -/
def format_payload_singles (doc_hits : DocPayload) : List SingleRecord :=
  (doc_hits.map fun dl =>
      let e := dl.2.headD ("", "")
      { doc_id := dl.1, score := e.1, sentence_id := e.2 : SingleRecord }).insertionSort
    fun a b => PyLe a.score b.score

/-- `QueryProcessor.query_corpus` on the default `rerank_by_doc=True` path,
from the indexer's search output onward (vectorizing and the faiss search
are external collaborators; `scores, faiss_ids` is what `self.indexer.search`
returned).  Returns `format_payload_docs(aggregate_docs(...))[:k]`. -/
def query_corpus (fmt : ℚ → String) (scores : List (List ℚ))
    (faiss_ids : List (List ℤ)) (k : ℕ) : List DocRecord :=
  (format_payload_docs (aggregate_docs fmt scores faiss_ids true)).take k

/-- `QueryProcessor.query_corpus` on the `rerank_by_doc=False` path. -/
def query_corpus_singles (fmt : ℚ → String) (scores : List (List ℚ))
    (faiss_ids : List (List ℤ)) (k : ℕ) : List SingleRecord :=
  (format_payload_singles (aggregate_docs fmt scores faiss_ids true)).take k

end DtSim

/-! ### `dt_sim_api/processor/query_processor.py` — the older `QueryProcessor`

This variant keeps raw floats in the dict (`min_diff_cutoff` has no `str`),
uses `cutoff=0.1`, does not filter non-positive ids while aggregating, and
filters whole documents with `int(doc_id) > 0` when formatting.  The dict
key `str(doc_id)` is recovered as an integer by `int(doc_id)` in
`format_payload`; since `str : ℤ → String` is injective the model keeps the
integer key. -/

namespace DtSimApi

/-- The dict built by `dt_sim_api`'s `aggregate_docs`: integer document id,
list of `(score, faiss_id)` hits. -/
abbrev DocsApi := List (ℤ × List (ℚ × ℤ))

/-- `min_diff_cutoff(diff_score, cutoff=0.1)`: `max(diff_score, cutoff)`,
kept as a float. -/
def min_diff_cutoff (diff_score : ℚ) (cutoff : ℚ) : ℚ :=
  max diff_score cutoff

/-- `dt_sim_api`'s `aggregate_docs` (lines 89-96): every `(score, faiss_id)`
pair is appended — there is no `faiss_id > 0` filter. -/
def aggregate_docs (scores : List (List ℚ)) (faiss_ids : List (List ℤ)) : DocsApi :=
  ((scores.headD []).zip (faiss_ids.headD [])).foldl
    (fun docs si =>
      pyDictAppend docs (si.2.ediv 10000) (min_diff_cutoff si.1 (1 / 10), si.2))
    []

/-- One record of the old payload: `{'score': ..., 'sentence_id': ...}`. -/
structure ApiHit where
  score : String
  sentence_id : String
deriving DecidableEq

/-- `dt_sim_api`'s `format_payload`: flatten the hits of every document with
`int(doc_id) > 0` and stable-sort by the score string. -/
def format_payload (fmt : ℚ → String) (doc_hits : DocsApi) : List ApiHit :=
  (doc_hits.foldl
    (fun payload dl =>
      if 0 < dl.1 then
        payload ++ dl.2.map fun e => { score := fmt e.1, sentence_id := toString e.2 : ApiHit }
      else payload)
    []).insertionSort fun a b => PyLe a.score b.score

end DtSimApi

/-! ### `dt_sim/indexer/ivf_index_handlers.py` — `RangeShards`

`RangeShards.search` iterates over the shard dict; for each shard it runs
`re.search(self.date_seed, shard_name).group()` and, when
`start <= shard_date <= end`, sends the query down the shard's pipe and calls
`shard.run()` (synchronously, in the manager process — the workers were
already `start()`ed once at mount time, so `run()` here executes the range
search inline and puts its `(dd, ii)` on the shared queue).  The collection
loop then drains exactly the dispatched results in dispatch order, extending
`D` with `dd[:k]` and `I` with `ii[:k]`, and returns
`joint_sort([D], [I])`. -/

namespace RangeShards

/-- One mounted shard, specialised to a fixed query: `name` is the dict key
(the path with `.index` stripped) and `(dd, ii)` is what its
`index.range_search(query, radius)` returns for the query being modelled
(all hits within the radius, in unspecified order). -/
structure ShardW where
  name : String
  dd : List ℚ
  ii : List ℤ
deriving DecidableEq

/-- The dispatch loop of `RangeShards.search` (lines 139-144): walk the
shards in dict order; `re.search(...).group()` on a dateless name raises
`AttributeError` (modelled as `none`); otherwise a shard is dispatched
exactly when `start <= shard_date <= end` under Python string comparison. -/
def dispatchLoop (shards : List ShardW) (start end_ : String) :
    Option (List ShardW) :=
  match shards with
  | [] => some []
  | sh :: rest =>
    match findDate sh.name with
    | none => none
    | some d =>
      match dispatchLoop rest start end_ with
      | none => none
      | some ds =>
        some (if pyStrLe start d && pyStrLe d end_ then sh :: ds else ds)

/-- What `D.extend(dd[:k])` keeps of one shard's result (line 150). -/
def shardRetained (sh : ShardW) (k : ℕ) : List ℚ :=
  sh.dd.take k

/-- What `I.extend(ii[:k])` keeps of one shard's result (line 150). -/
def shardRetainedIds (sh : ShardW) (k : ℕ) : List ℤ :=
  sh.ii.take k

/-- The collection loop of `RangeShards.search` (lines 147-151): drain the
queue of dispatched results (in dispatch order — `shard.run()` is called
inline, so the queue is filled in dispatch order), truncating each shard's
result to its first `k` entries. -/
def collectResults (ds : List ShardW) (k : ℕ) : List ℚ × List ℤ :=
  ds.foldl (fun DI sh => (DI.1 ++ shardRetained sh k, DI.2 ++ shardRetainedIds sh k))
    ([], [])

/-- Modelled from the spec: `BaseIndexer.joint_sort` is defined in
`dt_sim/indexer/base_indexer.py`, which is not among the available sources;
spec §4.6 step 6 describes `search`'s last step as "Return
`(distances, ids)` sorted jointly by ascending distance". -/
def joint_sort (D : List ℚ) (I : List ℤ) : List ℚ × List ℤ :=
  let pairs := (D.zip I).insertionSort fun a b => a.1 ≤ b.1
  (pairs.map Prod.fst, pairs.map Prod.snd)

/-- Per-query model of `RangeShards.search` (the query vector, radius and the
search lock are absorbed into the `ShardW` results; `none` models the
`AttributeError` escaping when some mounted shard's name has no date). -/
def search (shards : List ShardW) (k : ℕ) (start end_ : String) :
    Option (List ℚ × List ℤ) :=
  (dispatchLoop shards start end_).map fun ds =>
    let DI := collectResults ds k
    joint_sort DI.1 DI.2

/-- Does a shard's parsed date fall in the window?  (`false` when the name
has no date — such a shard is never *dispatched*; it makes the whole search
raise instead, see claim C7.) -/
def inWindow (sh : ShardW) (start end_ : String) : Bool :=
  match findDate sh.name with
  | none => false
  | some d => pyStrLe start d && pyStrLe d end_

/-- The spec's words for claim C4: "the `k` smallest-distance entries" of a
shard's result (spec §4.6 step 4); compared against `shardRetained`. -/
def kSmallest (dd : List ℚ) (k : ℕ) : List ℚ :=
  (dd.insertionSort fun a b => a ≤ b).take k

/-- The mutable state of a `RangeShards` manager that `add_shard` touches:
the path list, the shard-dict keys (insertion-ordered), and the lock flag. -/
structure State where
  paths_to_shards : List String
  shards : List String
  lock : Bool
deriving DecidableEq

/-- `shard_name = str(new_shard_path).replace('.index', '')`. -/
def shardNameOf (p : String) : String :=
  pyReplace p ".index" ""

/-- `RangeShards.add_shard` (lines 164-178): set the lock; warn and change
nothing if the path or the derived name is already mounted; otherwise append
the path and install the shard under its name; release the lock. -/
def add_shard (st : State) (p : String) : State :=
  if p ∈ st.paths_to_shards ∨ shardNameOf p ∈ st.shards then
    { st with lock := false }
  else
    { paths_to_shards := st.paths_to_shards ++ [p]
      shards := st.shards ++ [shardNameOf p]
      lock := false }

end RangeShards

/-! ### `dt_sim/indexer/ivf_index_handlers.py` — `DeployShards` -/

namespace DeployShards

/-- The mutable state of a `DeployShards` handler: the path list and the
shards merged into its `faiss.IndexShards` (modelled by their paths). -/
structure State where
  paths_to_shards : List String
  index_shards : List String
deriving DecidableEq

/-- `DeployShards.add_shard` (lines 52-59): warn and change nothing if the
path is already online, else append the path and add the loaded shard. -/
def add_shard (st : State) (p : String) : State :=
  if p ∈ st.paths_to_shards then st
  else
    { paths_to_shards := st.paths_to_shards ++ [p]
      index_shards := st.index_shards ++ [p] }

end DeployShards

/-! ### `dt_sim/indexer/index_builder.py` — `OnDiskIVFBuilder` and the merge

The IVF stores handled by `merge_IVFs` (and by the older
`DiskBuilderIVF.build_disk_index`, which runs the same sequence) are modelled
as one posting list per centroid `c < nlist`; a posting-list entry is a
`(code, id)` pair. -/

namespace Indexer

/-- A posting-list entry: compressed residual code (abstracted) and id. -/
abbrev Entry := ℕ × ℤ

/-- An inverted-list store: element `c` is posting list `c`; `nlist` is the
length. -/
abbrev InvStore := List (List Entry)

/-- `index.ntotal` of a store: total number of indexed entries. -/
def storeNtotal (s : InvStore) : ℕ :=
  (s.map List.length).sum

/-- The multiset of all `(code, id)` entries of a store. -/
def storeEntries (s : InvStore) : Multiset Entry :=
  (s.flatten : List Entry)

/-- Modelled from the spec: `faiss.OnDiskInvertedLists.merge_from` is library
code, not among the available sources; spec §4.1 describes it as "for each
centroid `c` and each source `s`, appends `s.list(c)` to `store.list(c)`;
returns the total entry count.  Order across sources is source order; within
a source it is preserved."  The destination starts empty
(`create_ondisk`). -/
def merge_from (nlist : ℕ) (sources : List InvStore) : InvStore × ℕ :=
  ((List.range nlist).map fun c => (sources.map fun s => s.getD c []).flatten,
   (sources.map storeNtotal).sum)

/-- `OnDiskIVFBuilder.merge_IVFs` (lines 201-239) /
`DiskBuilderIVF.build_disk_index` (IVF_disk_index_handler.py lines 107-129):
read each sub-index (in path order), collect its inverted lists, merge them
into a fresh on-disk store, set `index.ntotal` to the returned total and
return it.  Paths and files are external; the store contents are the
argument. -/
def merge_IVFs (nlist : ℕ) (sources : List InvStore) : InvStore × ℕ :=
  merge_from nlist sources

/-- The outcome of `OnDiskIVFBuilder.index_path_clear` (lines 355-366),
keeping the reason reported on the failing branches. -/
inductive PathCheck
  | clear
  | pathExists
  | invalidName
  | unexpected
deriving DecidableEq

/-- `index_path_clear` with its branch classification: clear iff the path is
no existing file and ends in the suffix; "Index already exists" when an
existing file ends in the suffix; "Invalid index filename" when the suffix is
missing; the last branch is unreachable.  `isfile` abstracts
`os.path.isfile`. -/
def index_path_check (isfile : String → Bool) (index_path : String)
    (file_suffix : String) : PathCheck :=
  if !isfile index_path && pyEndsWith index_path file_suffix then .clear
  else if isfile index_path && pyEndsWith index_path file_suffix then .pathExists
  else if !pyEndsWith index_path file_suffix then .invalidName
  else .unexpected

/-- The boolean returned by `index_path_clear`. -/
def index_path_clear (isfile : String → Bool) (index_path : String)
    (file_suffix : String) : Bool :=
  match index_path_check isfile index_path file_suffix with
  | .clear => true
  | _ => false

/-- The builder state touched by `generate_subindex`: the
`subindex_path_totals` catalogue (a dict path → ntotal). -/
structure BuilderState where
  subindex_path_totals : List (String × ℕ)
deriving DecidableEq

/-- `OnDiskIVFBuilder.generate_subindex` (lines 241-247): if the target path
is clear, build the sub-index (external faiss work abstracted by the
resulting `ntotal`), record it in the catalogue and write the file; else do
nothing.  The second component lists the paths written. -/
def generate_subindex (isfile : String → Bool) (st : BuilderState)
    (subindex_path : String) (ntotal : ℕ) : BuilderState × List String :=
  if index_path_clear isfile subindex_path ".index" then
    ({ subindex_path_totals :=
        pyDictInsert st.subindex_path_totals subindex_path ntotal },
     [subindex_path])
  else (st, [])

end Indexer

/-! ### Helper lemmas: dict folds -/

section DictLemmas

variable {κ β : Type} [DecidableEq κ]

/-- Hit `x` is recorded under key `k` somewhere in the dict. -/
def MemHit (d : List (κ × List β)) (k : κ) (x : β) : Prop :=
  ∃ l, (k, l) ∈ d ∧ x ∈ l

theorem memHit_pyDictAppend_self (d : List (κ × List β)) (k : κ) (e : β) :
    MemHit (pyDictAppend d k e) k e := by
  unfold pyDictAppend
  by_cases h : d.any fun p => decide (p.1 = k)
  · simp only [h, if_pos]
    rcases List.any_eq_true.mp h with ⟨p, hp, hpk⟩
    have hpk' : p.1 = k := by simpa using hpk
    refine ⟨p.2 ++ [e], ?_, by simp⟩
    have : (fun q : κ × List β => if q.1 = k then (q.1, q.2 ++ [e]) else q) p
        = (k, p.2 ++ [e]) := by
      simp [hpk']
    exact this ▸ List.mem_map_of_mem _ hp
  · simp only [h, if_neg, Bool.false_eq_true, not_false_iff]
    refine ⟨[] ++ [e], ?_, by simp⟩
    have hmem : (k, ([] : List β)) ∈ d ++ [(k, ([] : List β))] := by simp
    have : (fun q : κ × List β => if q.1 = k then (q.1, q.2 ++ [e]) else q) (k, [])
        = (k, [] ++ [e]) := by simp
    exact this ▸ List.mem_map_of_mem _ hmem

theorem memHit_pyDictAppend_of_memHit {d : List (κ × List β)} {k' : κ} {x : β}
    (k : κ) (e : β) (h : MemHit d k' x) : MemHit (pyDictAppend d k e) k' x := by
  rcases h with ⟨l, hl, hx⟩
  unfold pyDictAppend
  set f : κ × List β → κ × List β :=
    fun q => if q.1 = k then (q.1, q.2 ++ [e]) else q with hf
  have hl' : (k', l) ∈ (if d.any fun p => decide (p.1 = k) then d else d ++ [(k, [])]) := by
    by_cases hc : d.any fun p => decide (p.1 = k) <;> simp [hc, hl]
  by_cases hk : k' = k
  · exact ⟨l ++ [e], by
      have : f (k', l) = (k', l ++ [e]) := by simp [hf, hk]
      exact this ▸ List.mem_map_of_mem _ hl', by simp [hx]⟩
  · exact ⟨l, by
      have : f (k', l) = (k', l) := by simp [hf, hk]
      exact this ▸ List.mem_map_of_mem _ hl', hx⟩

theorem memHit_pyDictAppend_src {d : List (κ × List β)} {k k' : κ} {e x : β}
    (h : MemHit (pyDictAppend d k e) k' x) :
    MemHit d k' x ∨ (k' = k ∧ x = e) := by
  rcases h with ⟨l', hl', hx⟩
  unfold pyDictAppend at hl'
  rcases List.mem_map.mp hl' with ⟨p, hp, hfp⟩
  have hp' : p ∈ d ∨ p = (k, ([] : List β)) := by
    by_cases hc : d.any fun q => decide (q.1 = k)
    · simp only [hc, if_pos] at hp; exact Or.inl hp
    · simp only [hc, Bool.false_eq_true, if_neg, not_false_iff, List.mem_append,
        List.mem_singleton] at hp
      exact hp
  by_cases hpk : p.1 = k
  · rw [if_pos hpk] at hfp
    injection hfp with h1 h2
    subst h1
    rcases List.mem_append.mp (h2 ▸ hx) with hx' | hx'
    · rcases hp' with hpd | hpe
      · exact Or.inl ⟨p.2, hpd, hx'⟩
      · rw [hpe] at hx'; simp at hx'
    · exact Or.inr ⟨hpk, by simpa using hx'⟩
  · rw [if_neg hpk] at hfp
    rcases hp' with hpd | hpe
    · refine Or.inl ⟨l', ?_, hx⟩
      rw [← hfp]
      exact hpd
    · exact absurd (by rw [hpe]) hpk

theorem pyDictAppend_vals_ne_nil {d : List (κ × List β)} {k : κ} {e : β}
    (h : ∀ p ∈ d, p.2 ≠ []) : ∀ p ∈ pyDictAppend d k e, p.2 ≠ [] := by
  intro p' hp'
  unfold pyDictAppend at hp'
  rcases List.mem_map.mp hp' with ⟨p, hp, hfp⟩
  have hp2 : p.2 ≠ [] ∨ p = (k, ([] : List β)) := by
    by_cases hc : d.any fun q => decide (q.1 = k)
    · simp only [hc, if_pos] at hp; exact Or.inl (h p hp)
    · simp only [hc, Bool.false_eq_true, if_neg, not_false_iff, List.mem_append,
        List.mem_singleton] at hp
      rcases hp with hp | hp
      · exact Or.inl (h p hp)
      · exact Or.inr hp
  by_cases hpk : p.1 = k
  · simp only [hpk, if_pos] at hfp
    rw [← hfp]; simp
  · simp only [hpk, if_neg, not_false_iff] at hfp
    rcases hp2 with h2 | h2
    · rw [← hfp]; exact h2
    · exact absurd (by rw [h2]) hpk

end DictLemmas

/-! ### Helper lemmas: generic folds -/

section FoldLemmas

variable {κ β α : Type}

theorem foldl_memHit_mono {step : List (κ × List β) → α → List (κ × List β)}
    (hstep : ∀ d a k x, MemHit d k x → MemHit (step d a) k x) :
    ∀ (l : List α) (d : List (κ × List β)) (k : κ) (x : β),
      MemHit d k x → MemHit (l.foldl step d) k x := by
  intro l
  induction l with
  | nil => intro d k x h; exact h
  | cons a t ih => intro d k x h; exact ih _ _ _ (hstep d a k x h)

theorem foldl_memHit_intro {step : List (κ × List β) → α → List (κ × List β)}
    (hstep : ∀ d a k x, MemHit d k x → MemHit (step d a) k x) :
    ∀ (l : List α) (a : α) (k : κ) (x : β), a ∈ l →
      (∀ d, MemHit (step d a) k x) →
      ∀ d, MemHit (l.foldl step d) k x := by
  intro l
  induction l with
  | nil => intro a k x h; cases h
  | cons b t ih =>
    intro a k x hmem hins d
    rcases List.mem_cons.mp hmem with h | h
    · subst h
      exact foldl_memHit_mono hstep t _ _ _ (hins d)
    · exact ih a k x h hins (step d b)

theorem foldl_memHit_src {step : List (κ × List β) → α → List (κ × List β)}
    {C : α → κ → β → Prop}
    (hstep : ∀ d a k x, MemHit (step d a) k x → MemHit d k x ∨ C a k x) :
    ∀ (l : List α) (d : List (κ × List β)) (k : κ) (x : β),
      MemHit (l.foldl step d) k x → MemHit d k x ∨ ∃ a ∈ l, C a k x := by
  intro l
  induction l with
  | nil => intro d k x h; exact Or.inl h
  | cons b t ih =>
    intro d k x h
    rcases ih _ _ _ h with h' | ⟨a, ha, hc⟩
    · rcases hstep d b _ _ h' with h'' | hc
      · exact Or.inl h''
      · exact Or.inr ⟨b, List.mem_cons_self _ _, hc⟩
    · exact Or.inr ⟨a, List.mem_cons_of_mem _ ha, hc⟩

theorem foldl_preserve {σ : Type} {step : σ → α → σ} {P : σ → Prop}
    (hstep : ∀ s a, P s → P (step s a)) :
    ∀ (l : List α) (s : σ), P s → P (l.foldl step s) := by
  intro l
  induction l with
  | nil => intro s h; exact h
  | cons a t ih => intro s h; exact ih _ (hstep s a h)

end FoldLemmas

/-! ### Helper lemmas: sorting -/

instance : IsTotal String PyLe :=
  ⟨pyLe_total⟩

instance : IsTrans String PyLe :=
  ⟨fun _ _ _ => pyLe_trans⟩

instance : IsTotal DtSim.ScoreId fun a b => PyLe a.1 b.1 :=
  ⟨fun a b => pyLe_total a.1 b.1⟩

instance : IsTrans DtSim.ScoreId fun a b => PyLe a.1 b.1 :=
  ⟨fun _ _ _ => pyLe_trans⟩

instance : IsTotal DtSim.DocRecord fun a b => PyLe a.score b.score :=
  ⟨fun a b => pyLe_total a.score b.score⟩

instance : IsTrans DtSim.DocRecord fun a b => PyLe a.score b.score :=
  ⟨fun _ _ _ => pyLe_trans⟩

instance : IsTotal DtSim.SingleRecord fun a b => PyLe a.score b.score :=
  ⟨fun a b => pyLe_total a.score b.score⟩

instance : IsTrans DtSim.SingleRecord fun a b => PyLe a.score b.score :=
  ⟨fun _ _ _ => pyLe_trans⟩

instance : IsTotal DtSimApi.ApiHit fun a b => PyLe a.score b.score :=
  ⟨fun a b => pyLe_total a.score b.score⟩

instance : IsTrans DtSimApi.ApiHit fun a b => PyLe a.score b.score :=
  ⟨fun _ _ _ => pyLe_trans⟩

instance : IsTotal (ℚ × ℤ) fun a b => a.1 ≤ b.1 :=
  ⟨fun a b => le_total a.1 b.1⟩

instance : IsTrans (ℚ × ℤ) fun a b => a.1 ≤ b.1 :=
  ⟨fun _ _ _ => le_trans⟩

namespace DtSim

theorem sort_score_ids_perm (l : List ScoreId) : (sort_score_ids l).Perm l := by
  unfold sort_score_ids
  by_cases h : chainLeBool l
  · simp [h]
  · simp only [h, Bool.false_eq_true, if_neg, not_false_iff]
    exact List.perm_insertionSort _ l

theorem sort_score_ids_ne_nil {l : List ScoreId} (h : l ≠ []) :
    sort_score_ids l ≠ [] := by
  intro hc
  exact h (List.Perm.eq_nil ((sort_score_ids_perm l).symm.trans (hc ▸ List.Perm.refl _)))

theorem format_payload_docs_sorted (doc_hits : DocPayload) :
    List.Sorted (fun a b : DocRecord => PyLe a.score b.score)
      (format_payload_docs doc_hits) :=
  List.sorted_insertionSort _ _

theorem format_payload_singles_sorted (doc_hits : DocPayload) :
    List.Sorted (fun a b : SingleRecord => PyLe a.score b.score)
      (format_payload_singles doc_hits) :=
  List.sorted_insertionSort _ _

/-- Any record of the formatted doc payload is the image of a dict item. -/
theorem format_payload_docs_src {doc_hits : DocPayload} {rec : DocRecord}
    (h : rec ∈ format_payload_docs doc_hits) :
    ∃ dl ∈ doc_hits,
      rec = { doc_id := dl.1
              id_score_tups := dl.2.map fun e => (e.2, e.1)
              score := pyMinStr (dl.2.map Prod.fst) : DocRecord } := by
  unfold format_payload_docs at h
  have h' := (List.perm_insertionSort
    (fun a b : DocRecord => PyLe a.score b.score) _).mem_iff.mp h
  rcases List.mem_map.mp h' with ⟨dl, hdl, hrec⟩
  exact ⟨dl, hdl, hrec.symm⟩

end DtSim

/-! ### Claim theorems -/

/-- Claim C1: for every query (embodied by the scores and ids its search
returns) and every `k`, the payload returned by `query_corpus` is sorted by
ascending score (Python string comparison of the rendered scores, which is
what `sorted(..., key=...)` compares) and contains at most `k` document
records — on both the `rerank_by_doc=True` and the `rerank_by_doc=False`
paths. -/
theorem query_corpus_sorted_at_most_k (fmt : ℚ → String)
    (scores : List (List ℚ)) (faiss_ids : List (List ℤ)) (k : ℕ) :
    List.Sorted (fun a b : DtSim.DocRecord => PyLe a.score b.score)
        (DtSim.query_corpus fmt scores faiss_ids k) ∧
      (DtSim.query_corpus fmt scores faiss_ids k).length ≤ k ∧
      List.Sorted (fun a b : DtSim.SingleRecord => PyLe a.score b.score)
        (DtSim.query_corpus_singles fmt scores faiss_ids k) ∧
      (DtSim.query_corpus_singles fmt scores faiss_ids k).length ≤ k := by
  unfold DtSim.query_corpus DtSim.query_corpus_singles
  refine ⟨?_, ?_, ?_, ?_⟩
  · exact List.Pairwise.sublist (List.take_sublist _ _)
      (DtSim.format_payload_docs_sorted _)
  · rw [List.length_take]; exact min_le_left _ _
  · exact List.Pairwise.sublist (List.take_sublist _ _)
      (DtSim.format_payload_singles_sorted _)
  · rw [List.length_take]; exact min_le_left _ _

/-- Claim C8: `add_shard(p)` twice is the same as once — the second call hits
the already-online warning branch and changes nothing (path list, shard dict
and hence the shard count included), for both `RangeShards` and
`DeployShards`. -/
theorem add_shard_idempotent (st : RangeShards.State) (st' : DeployShards.State)
    (p : String) :
    RangeShards.add_shard (RangeShards.add_shard st p) p = RangeShards.add_shard st p ∧
      DeployShards.add_shard (DeployShards.add_shard st' p) p = DeployShards.add_shard st' p := by
  constructor
  · by_cases h : p ∈ st.paths_to_shards ∨ RangeShards.shardNameOf p ∈ st.shards
    · simp only [RangeShards.add_shard, if_pos h]
    · simp only [RangeShards.add_shard, if_neg h]
      rw [if_pos]
      exact Or.inl (List.mem_append_right _ (List.mem_singleton_self p))
  · by_cases h : p ∈ st'.paths_to_shards
    · simp only [DeployShards.add_shard, if_pos h]
    · simp only [DeployShards.add_shard, if_neg h]
      rw [if_pos]
      exact List.mem_append_right _ (List.mem_singleton_self p)

/-- Claim C9: `generate_subindex` refuses an occupied target path (the
"Index already exists" branch of `index_path_clear`) and a path that does not
end in `.index` (the "Invalid index filename" branch), and on every
non-clear outcome it writes nothing and leaves the `subindex_path_totals`
catalogue unchanged. -/
theorem generate_subindex_fail_no_write (isfile : String → Bool)
    (st : Indexer.BuilderState) (p : String) (n : ℕ) :
    (isfile p = true → pyEndsWith p ".index" = true →
      Indexer.index_path_check isfile p ".index" = Indexer.PathCheck.pathExists) ∧
      (pyEndsWith p ".index" = false →
        Indexer.index_path_check isfile p ".index" = Indexer.PathCheck.invalidName) ∧
      (Indexer.index_path_check isfile p ".index" ≠ Indexer.PathCheck.clear →
        Indexer.generate_subindex isfile st p n = (st, [])) := by
  refine ⟨?_, ?_, ?_⟩
  · intro h1 h2
    simp [Indexer.index_path_check, h1, h2]
  · intro h1
    simp [Indexer.index_path_check, h1]
  · intro h1
    unfold Indexer.generate_subindex Indexer.index_path_clear
    cases hc : Indexer.index_path_check isfile p ".index" with
    | clear => exact absurd hc h1
    | pathExists => simp
    | invalidName => simp
    | unexpected => simp

/-! ### Helper lemmas for the merge (claim C2) -/

namespace Indexer

theorem range_map_getD {α : Type} (s : List α) (d : α) :
    (List.range s.length).map (fun c => s.getD c d) = s := by
  induction s with
  | nil => simp
  | cons a t ih =>
    rw [List.length_cons, List.range_succ_eq_map, List.map_cons, List.map_map]
    have h2 : ((fun c => (a :: t).getD c d) ∘ Nat.succ) = fun c => t.getD c d := by
      funext c
      simp [List.getD_cons_succ]
    rw [h2, ih]
    simp

theorem multiset_flatten_map_append {ι α : Type} (L : List ι) (A B : ι → List α) :
    (((L.map fun c => A c ++ B c).flatten : List α) : Multiset α)
      = ((L.map A).flatten : List α) + (((L.map B).flatten : List α) : Multiset α) := by
  induction L with
  | nil => simp
  | cons c t ih =>
    simp only [List.map_cons, List.flatten_cons, ← Multiset.coe_add]
    rw [ih, add_add_add_comm]

theorem list_sum_map_add {ι : Type} (L : List ι) (f g : ι → ℕ) :
    (L.map fun c => f c + g c).sum = (L.map f).sum + (L.map g).sum := by
  induction L with
  | nil => simp
  | cons c t ih => simp [ih]; omega

theorem merged_multiset (nlist : ℕ) :
    ∀ sources : List InvStore, (∀ s ∈ sources, s.length = nlist) →
      storeEntries ((List.range nlist).map fun c =>
          (sources.map fun s => s.getD c []).flatten)
        = (sources.map storeEntries).sum := by
  intro sources
  induction sources with
  | nil =>
    intro _
    unfold storeEntries
    have : ∀ L : List ℕ, ((L.map fun _ => ([] : List Entry)).flatten) = [] := by
      intro L; induction L <;> simp_all
    simp [this]
  | cons s rest ih =>
    intro h
    have hs : s.length = nlist := h s (List.mem_cons_self _ _)
    have hrest : ∀ s' ∈ rest, s'.length = nlist :=
      fun s' hs' => h s' (List.mem_cons_of_mem _ hs')
    unfold storeEntries
    simp only [List.map_cons, List.flatten_cons, List.sum_cons]
    rw [multiset_flatten_map_append (List.range nlist) (fun c => s.getD c [])
      (fun c => ((rest.map fun s' => s'.getD c []).flatten))]
    have hfirst : ((List.range nlist).map fun c => s.getD c []) = s := by
      rw [← hs]; exact range_map_getD s []
    rw [hfirst]
    have hr := ih hrest
    unfold storeEntries at hr
    rw [hr]

theorem multiset_card_list_sum {α : Type} (L : List (Multiset α)) :
    Multiset.card L.sum = (L.map Multiset.card).sum := by
  induction L with
  | nil => simp
  | cons a t ih => simp [Multiset.card_add, ih]

theorem storeNtotal_eq_card (s : InvStore) :
    storeNtotal s = Multiset.card (storeEntries s) := by
  unfold storeNtotal storeEntries
  rw [Multiset.coe_card, List.length_flatten]

theorem merged_ntotal (nlist : ℕ) (sources : List InvStore)
    (h : ∀ s ∈ sources, s.length = nlist) :
    storeNtotal ((List.range nlist).map fun c =>
        (sources.map fun s => s.getD c []).flatten)
      = (sources.map storeNtotal).sum := by
  rw [storeNtotal_eq_card, merged_multiset nlist sources h, multiset_card_list_sum]
  have hcomp : (Multiset.card ∘ storeEntries) = storeNtotal := by
    funext s
    rw [Function.comp_apply, ← storeNtotal_eq_card]
  rw [List.map_map, hcomp]

end Indexer

/-- Claim C2: merging sub-indexes (`merge_IVFs`, and `build_disk_index`,
which performs the same merge) produces a shard whose multiset of
`(code, id)` entries is the disjoint union of the inputs' entries, and the
returned `ntotal` equals the sum of the posting-list lengths of the merged
shard.  The sources must agree with the base index on `nlist` (a mismatch is
the spec's `Corrupt` failure). -/
theorem merge_IVFs_entries_and_ntotal (nlist : ℕ) (sources : List Indexer.InvStore)
    (h : ∀ s ∈ sources, s.length = nlist) :
    Indexer.storeEntries (Indexer.merge_IVFs nlist sources).1
        = (sources.map Indexer.storeEntries).sum ∧
      (Indexer.merge_IVFs nlist sources).2
        = Indexer.storeNtotal (Indexer.merge_IVFs nlist sources).1 := by
  constructor
  · exact Indexer.merged_multiset nlist sources h
  · exact (Indexer.merged_ntotal nlist sources h).symm

/-- Witness for C2: two sub-indexes over `nlist = 2`. -/
theorem merge_IVFs_entries_and_ntotal_witness :
    (∀ s ∈ [[[((1 : ℕ), (10001 : ℤ))], []], [[], [(2, 20001)]]], s.length = 2) ∧
      (Indexer.storeEntries
          (Indexer.merge_IVFs 2 [[[(1, 10001)], []], [[], [(2, 20001)]]]).1
        = ([[[((1 : ℕ), (10001 : ℤ))], []], [[], [(2, 20001)]]].map
            Indexer.storeEntries).sum ∧
        (Indexer.merge_IVFs 2 [[[(1, 10001)], []], [[], [(2, 20001)]]]).2
          = Indexer.storeNtotal
              (Indexer.merge_IVFs 2 [[[(1, 10001)], []], [[], [(2, 20001)]]]).1) :=
  ⟨by decide, merge_IVFs_entries_and_ntotal 2 _ (by decide)⟩

/-- Witness for C9: with only `a.index` on disk, `a.index` is refused as
occupied, `b.txt` as badly named, and the failing call leaves the catalogue
untouched and writes nothing. -/
theorem generate_subindex_fail_no_write_witness :
    (Indexer.index_path_check (fun s => s == "a.index") "a.index" ".index"
        = Indexer.PathCheck.pathExists) ∧
      (Indexer.index_path_check (fun s => s == "a.index") "b.txt" ".index"
        = Indexer.PathCheck.invalidName) ∧
      (Indexer.generate_subindex (fun s => s == "a.index")
          ⟨[]⟩ "a.index" 3 = (⟨[]⟩, [])) :=
  ⟨(generate_subindex_fail_no_write (fun s => s == "a.index") ⟨[]⟩ "a.index" 3).1
      (by decide) (by decide),
    (generate_subindex_fail_no_write (fun s => s == "a.index") ⟨[]⟩ "b.txt" 3).2.1
      (by decide),
    (generate_subindex_fail_no_write (fun s => s == "a.index") ⟨[]⟩ "a.index" 3).2.2
      (by decide)⟩

/-! ### Helper lemmas for the shard manager (claims C3, C4, C7) -/

namespace RangeShards

theorem dispatchLoop_eq_filter (start end_ : String) :
    ∀ shards : List ShardW, (∀ sh ∈ shards, (findDate sh.name).isSome = true) →
      dispatchLoop shards start end_
        = some (shards.filter fun sh => inWindow sh start end_) := by
  intro shards
  induction shards with
  | nil => intro _; rfl
  | cons sh rest ih =>
    intro h
    obtain ⟨d, hd⟩ := Option.isSome_iff_exists.mp (h sh (List.mem_cons_self _ _))
    have hrest := ih fun sh' hs' => h sh' (List.mem_cons_of_mem _ hs')
    have hwin : inWindow sh start end_ = (pyStrLe start d && pyStrLe d end_) := by
      unfold inWindow
      rw [hd]
    unfold dispatchLoop
    rw [hd, hrest]
    by_cases hb : (pyStrLe start d && pyStrLe d end_) = true
    · simp [hb, List.filter_cons, hwin]
    · simp only [Bool.not_eq_true] at hb
      simp [hb, List.filter_cons, hwin]

theorem dispatchLoop_none (start end_ : String) :
    ∀ shards : List ShardW, (∃ sh ∈ shards, findDate sh.name = none) →
      dispatchLoop shards start end_ = none := by
  intro shards
  induction shards with
  | nil => rintro ⟨sh, hm, _⟩; cases hm
  | cons sh rest ih =>
    rintro ⟨sh', hm, hnone⟩
    rcases List.mem_cons.mp hm with h | h
    · subst h
      unfold dispatchLoop
      rw [hnone]
    · unfold dispatchLoop
      cases hfd : findDate sh.name with
      | none => rfl
      | some d => rw [ih ⟨sh', h, hnone⟩]

theorem collectResults_eq_flatten (k : ℕ) :
    ∀ (ds : List ShardW) (a : List ℚ) (b : List ℤ),
      ds.foldl (fun DI sh => (DI.1 ++ shardRetained sh k, DI.2 ++ shardRetainedIds sh k))
          (a, b)
        = (a ++ (ds.map fun sh => shardRetained sh k).flatten,
           b ++ (ds.map fun sh => shardRetainedIds sh k).flatten) := by
  intro ds
  induction ds with
  | nil => intro a b; simp
  | cons sh rest ih =>
    intro a b
    rw [List.foldl_cons, ih]
    simp

end RangeShards

/-- Claim C3: when every mounted shard's name carries a date, a query with
window `[start, end]` dispatches a range search to exactly the shards whose
parsed date `d` satisfies `start <= d <= end` under Python string comparison;
with a window disjoint from every shard's date, no worker is dispatched and
the search result is empty. -/
theorem rangeShards_search_dispatch (shards : List RangeShards.ShardW)
    (start end_ : String) (k : ℕ)
    (hdates : ∀ sh ∈ shards, (findDate sh.name).isSome = true) :
    RangeShards.dispatchLoop shards start end_
        = some (shards.filter fun sh => RangeShards.inWindow sh start end_) ∧
      ((∀ sh ∈ shards, RangeShards.inWindow sh start end_ = false) →
        RangeShards.dispatchLoop shards start end_ = some [] ∧
          RangeShards.search shards k start end_ = some ([], [])) := by
  have hdisp := RangeShards.dispatchLoop_eq_filter start end_ shards hdates
  refine ⟨hdisp, fun hnone => ?_⟩
  have hfilter : (shards.filter fun sh => RangeShards.inWindow sh start end_) = [] := by
    rw [List.filter_eq_nil_iff]
    intro sh hs
    simp [hnone sh hs]
  have hdisp' : RangeShards.dispatchLoop shards start end_ = some [] := by
    rw [hdisp, hfilter]
  refine ⟨hdisp', ?_⟩
  unfold RangeShards.search
  rw [hdisp']
  rfl

/-- Witness for C3: one dated shard, queried with a disjoint window. -/
theorem rangeShards_search_dispatch_witness :
    (∀ sh ∈ [RangeShards.ShardW.mk "idx/2020-01-01_news" [5] [50001]],
        (findDate sh.name).isSome = true) ∧
      (∀ sh ∈ [RangeShards.ShardW.mk "idx/2020-01-01_news" [5] [50001]],
        RangeShards.inWindow sh "2021-01-01" "2021-12-31" = false) ∧
      RangeShards.dispatchLoop [RangeShards.ShardW.mk "idx/2020-01-01_news" [5] [50001]]
          "2021-01-01" "2021-12-31" = some [] ∧
      RangeShards.search [RangeShards.ShardW.mk "idx/2020-01-01_news" [5] [50001]] 5
          "2021-01-01" "2021-12-31" = some ([], []) :=
  ⟨by decide, by decide,
    ((rangeShards_search_dispatch _ "2021-01-01" "2021-12-31" 5 (by decide)).2
      (by decide)).1,
    ((rangeShards_search_dispatch _ "2021-01-01" "2021-12-31" 5 (by decide)).2
      (by decide)).2⟩

/-- Counterexample to claim C4 as stated: a shard returns distances `[5, 1]`
(range search results carry no order guarantee); with `k = 1` the manager
keeps `dd[:k] = [5]`, not the `k` smallest-distance entry `[1]`. -/
theorem retained_not_k_smallest_counterexample :
    RangeShards.shardRetained (RangeShards.ShardW.mk "2020-01-01_news" [5, 1] [11, 12]) 1
        = [5] ∧
      RangeShards.kSmallest [5, 1] 1 = [1] ∧
      ¬ (RangeShards.shardRetained
            (RangeShards.ShardW.mk "2020-01-01_news" [5, 1] [11, 12]) 1).Perm
          (RangeShards.kSmallest [5, 1] 1) := by
  have h1 : RangeShards.shardRetained
      (RangeShards.ShardW.mk "2020-01-01_news" [5, 1] [11, 12]) 1 = [5] := rfl
  have h2 : RangeShards.kSmallest [5, 1] 1 = [1] := by
    unfold RangeShards.kSmallest
    rw [show (([5, 1] : List ℚ).insertionSort fun a b => a ≤ b) = [1, 5] from by
      simp [List.insertionSort, List.orderedInsert]]
    rfl
  refine ⟨h1, h2, ?_⟩
  rw [h1, h2]
  intro hperm
  rw [List.perm_singleton] at hperm
  have : (5 : ℚ) = 1 := by
    injection hperm
  norm_num at this

/-- Claim C4 as amended: from each shard's result the manager retains the
first `k` entries in the order the shard returned them (`dd[:k]`, `ii[:k]`),
concatenated across shards in dispatch order. -/
theorem collectResults_takes_first_k (ds : List RangeShards.ShardW) (k : ℕ) :
    RangeShards.collectResults ds k
      = ((ds.map fun sh => RangeShards.shardRetained sh k).flatten,
         (ds.map fun sh => RangeShards.shardRetainedIds sh k).flatten) := by
  unfold RangeShards.collectResults
  rw [RangeShards.collectResults_eq_flatten]
  simp

/-- Counterexample to claim C7 as stated: mounting a shard whose name has no
date substring makes even the unrestricted default query raise
`AttributeError` (modelled as `none`) instead of searching it normally. -/
theorem dateless_shard_search_raises_counterexample :
    findDate "daily_batch" = none ∧
      RangeShards.search [RangeShards.ShardW.mk "daily_batch" [5] [50001]] 5
          "0000-00-00" "9999-99-99" = none := by
  constructor
  · decide
  · decide

/-- Claim C7 as amended: whenever any mounted shard's name contains no date
substring, `RangeShards.search` fails (for every window, the unrestricted
default included) — a dateless shard is not merely unreachable, it poisons
every query. -/
theorem dateless_shard_search_raises (shards : List RangeShards.ShardW)
    (k : ℕ) (start end_ : String)
    (h : ∃ sh ∈ shards, findDate sh.name = none) :
    RangeShards.search shards k start end_ = none := by
  unfold RangeShards.search
  rw [RangeShards.dispatchLoop_none start end_ shards h]
  rfl

/-- Witness for the amended C7. -/
theorem dateless_shard_search_raises_witness :
    RangeShards.search [RangeShards.ShardW.mk "apples" [] []] 3
        "0000-00-00" "9999-99-99" = none :=
  dateless_shard_search_raises _ 3 "0000-00-00" "9999-99-99"
    ⟨RangeShards.ShardW.mk "apples" [] [], List.mem_singleton_self _, by decide⟩

/-! ### Helper lemmas: tracing hits through `aggregate_docs` (claims C5, C6, C10) -/

namespace DtSim

theorem docs_agg_step_mono (fmt : ℚ → String) :
    ∀ (d : DocPayload) (a : ℚ × ℤ) (k : String) (x : ScoreId),
      MemHit d k x →
      MemHit
        (if 0 < a.2 then
          pyDictAppend d (toString (a.2.ediv 10000))
            (min_diff_cutoff fmt a.1 (1 / 100), toString a.2)
        else d) k x := by
  intro d a k x h
  by_cases hp : 0 < a.2
  · rw [if_pos hp]
    exact memHit_pyDictAppend_of_memHit _ _ h
  · rw [if_neg hp]
    exact h

theorem docs_agg_src {fmt : ℚ → String} {pairs : List (ℚ × ℤ)} {k : String}
    {x : ScoreId} (h : MemHit (docs_agg fmt pairs) k x) :
    ∃ si ∈ pairs, 0 < si.2 ∧ k = toString (si.2.ediv 10000) ∧
      x = (min_diff_cutoff fmt si.1 (1 / 100), toString si.2) := by
  unfold docs_agg at h
  have hsrc := foldl_memHit_src
    (C := fun (si : ℚ × ℤ) (k : String) (x : ScoreId) =>
      0 < si.2 ∧ k = toString (si.2.ediv 10000) ∧
        x = (min_diff_cutoff fmt si.1 (1 / 100), toString si.2))
    (fun d a k x hmem => by
      by_cases hp : 0 < a.2
      · rw [if_pos hp] at hmem
        rcases memHit_pyDictAppend_src hmem with h1 | ⟨hk, hx⟩
        · exact Or.inl h1
        · exact Or.inr ⟨hp, hk, hx⟩
      · rw [if_neg hp] at hmem
        exact Or.inl hmem)
    pairs [] k x h
  rcases hsrc with ⟨l, hl, _⟩ | ⟨a, ha, hc⟩
  · cases hl
  · exact ⟨a, ha, hc⟩

theorem docs_agg_floor (fmt : ℚ → String) (pairs : List (ℚ × ℤ)) (si : ℚ × ℤ)
    (hmem : si ∈ pairs) (hpos : 0 < si.2) :
    MemHit (docs_agg fmt pairs) (toString (si.2.ediv 10000))
      (min_diff_cutoff fmt si.1 (1 / 100), toString si.2) := by
  unfold docs_agg
  exact foldl_memHit_intro (docs_agg_step_mono fmt) pairs si _ _ hmem
    (fun d => by
      rw [if_pos hpos]
      exact memHit_pyDictAppend_self _ _ _) []

theorem docs_agg_vals_ne_nil (fmt : ℚ → String) (pairs : List (ℚ × ℤ)) :
    ∀ p ∈ docs_agg fmt pairs, p.2 ≠ [] := by
  unfold docs_agg
  refine foldl_preserve (P := fun d : DocPayload => ∀ p ∈ d, p.2 ≠ []) ?_ pairs [] ?_
  · intro d a hP
    by_cases hp : 0 < a.2
    · rw [if_pos hp]
      exact pyDictAppend_vals_ne_nil hP
    · rw [if_neg hp]
      exact hP
  · intro p hp
    cases hp

theorem dedup_fold_src :
    ∀ (docs : DocPayload) (acc : DocPayload × List (List String)) (p : String × List ScoreId),
      p ∈ (docs.foldl
        (fun (acc : DocPayload × List (List String)) dl =>
          let h := (dl.2.map Prod.fst).insertionSort PyLe
          if h ∈ acc.2 then acc
          else (acc.1 ++ [(dl.1, sort_score_ids dl.2)], acc.2 ++ [h])) acc).1 →
      p ∈ acc.1 ∨ ∃ l₀, (p.1, l₀) ∈ docs ∧ p.2 = sort_score_ids l₀ := by
  intro docs
  induction docs with
  | nil => intro acc p hp; exact Or.inl hp
  | cons dl rest ih =>
    intro acc p hp
    rw [List.foldl_cons] at hp
    rcases ih _ p hp with h' | ⟨l₀, hl₀, hsort⟩
    · by_cases hc : ((dl.2.map Prod.fst).insertionSort PyLe) ∈ acc.2
      · simp only [if_pos hc] at h'
        exact Or.inl h'
      · simp only [if_neg hc] at h'
        rcases List.mem_append.mp h' with h'' | h''
        · exact Or.inl h''
        · rcases List.mem_singleton.mp h'' with rfl
          exact Or.inr ⟨dl.2, List.mem_cons_self _ _, rfl⟩
    · exact Or.inr ⟨l₀, List.mem_cons_of_mem _ hl₀, hsort⟩

theorem dedup_pass_src {docs : DocPayload} {p : String × List ScoreId}
    (hp : p ∈ dedup_pass docs) :
    ∃ l₀, (p.1, l₀) ∈ docs ∧ p.2 = sort_score_ids l₀ := by
  unfold dedup_pass at hp
  rcases dedup_fold_src docs ([], []) p hp with h | h
  · cases h
  · exact h

theorem aggregate_docs_entries {fmt : ℚ → String} {scores : List (List ℚ)}
    {faiss_ids : List (List ℤ)} {ru : Bool} {p : String × List ScoreId}
    (hp : p ∈ aggregate_docs fmt scores faiss_ids ru) :
    ∀ e ∈ p.2,
      MemHit (docs_agg fmt ((scores.headD []).zip (faiss_ids.headD []))) p.1 e := by
  intro e he
  unfold aggregate_docs at hp
  cases ru with
  | true =>
    rw [if_pos rfl] at hp
    obtain ⟨l₀, hl₀, hsort⟩ := dedup_pass_src hp
    exact ⟨l₀, hl₀, (sort_score_ids_perm l₀).mem_iff.mp (hsort ▸ he)⟩
  | false =>
    simp only [Bool.false_eq_true, if_neg, not_false_iff] at hp
    rcases List.mem_map.mp hp with ⟨dl, hdl, heq⟩
    refine ⟨dl.2, ?_, ?_⟩
    · have : p.1 = dl.1 := by rw [← heq]
      rw [this]
      exact hdl
    · have : p.2 = sort_score_ids dl.2 := by rw [← heq]
      exact (sort_score_ids_perm dl.2).mem_iff.mp (this ▸ he)

end DtSim

namespace DtSimApi

theorem api_aggregate_src {scores : List (List ℚ)} {faiss_ids : List (List ℤ)}
    {k : ℤ} {x : ℚ × ℤ} (h : MemHit (aggregate_docs scores faiss_ids) k x) :
    ∃ si ∈ (scores.headD []).zip (faiss_ids.headD []),
      k = si.2.ediv 10000 ∧ x = (min_diff_cutoff si.1 (1 / 10), si.2) := by
  unfold aggregate_docs at h
  have hsrc := foldl_memHit_src
    (C := fun (si : ℚ × ℤ) (k : ℤ) (x : ℚ × ℤ) =>
      k = si.2.ediv 10000 ∧ x = (min_diff_cutoff si.1 (1 / 10), si.2))
    (fun d a k x hmem => by
      rcases memHit_pyDictAppend_src hmem with h1 | ⟨hk, hx⟩
      · exact Or.inl h1
      · exact Or.inr ⟨hk, hx⟩)
    ((scores.headD []).zip (faiss_ids.headD [])) [] k x h
  rcases hsrc with ⟨l, hl, _⟩ | ⟨a, ha, hc⟩
  · cases hl
  · exact ⟨a, ha, hc⟩

theorem api_aggregate_floor (scores : List (List ℚ)) (faiss_ids : List (List ℤ))
    (si : ℚ × ℤ) (hmem : si ∈ (scores.headD []).zip (faiss_ids.headD [])) :
    MemHit (aggregate_docs scores faiss_ids) (si.2.ediv 10000)
      (min_diff_cutoff si.1 (1 / 10), si.2) := by
  unfold aggregate_docs
  refine foldl_memHit_intro ?_ ((scores.headD []).zip (faiss_ids.headD [])) si
    (si.2.ediv 10000) (min_diff_cutoff si.1 (1 / 10), si.2) hmem ?_ []
  · exact fun d a k x h => memHit_pyDictAppend_of_memHit _ _ h
  · intro d
    exact memHit_pyDictAppend_self d (si.2.ediv 10000)
      (min_diff_cutoff si.1 (1 / 10), si.2)

theorem api_fold_src (fmt : ℚ → String) :
    ∀ (docs : DocsApi) (acc : List ApiHit) (rec : ApiHit),
      rec ∈ docs.foldl
        (fun payload dl =>
          if 0 < dl.1 then
            payload ++ dl.2.map fun e => { score := fmt e.1, sentence_id := toString e.2 : ApiHit }
          else payload) acc →
      rec ∈ acc ∨ ∃ dl ∈ docs, 0 < dl.1 ∧ ∃ e ∈ dl.2,
        rec = { score := fmt e.1, sentence_id := toString e.2 : ApiHit } := by
  intro docs
  induction docs with
  | nil => intro acc rec h; exact Or.inl h
  | cons dl rest ih =>
    intro acc rec h
    rw [List.foldl_cons] at h
    rcases ih _ rec h with h' | ⟨dl', hdl', hpos, e, he, heq⟩
    · by_cases hp : 0 < dl.1
      · rw [if_pos hp] at h'
        rcases List.mem_append.mp h' with h'' | h''
        · exact Or.inl h''
        · rcases List.mem_map.mp h'' with ⟨e, he, heq⟩
          exact Or.inr ⟨dl, List.mem_cons_self _ _, hp, e, he, heq.symm⟩
      · rw [if_neg hp] at h'
        exact Or.inl h'
    · exact Or.inr ⟨dl', List.mem_cons_of_mem _ hdl', hpos, e, he, heq⟩

end DtSimApi

/-- Positive Euclidean quotient forces a positive dividend (divisor 10000). -/
theorem pos_of_ediv_10000_pos {i : ℤ} (h : 0 < i.ediv 10000) : 0 < i := by
  by_contra hneg
  push_neg at hneg
  have h2 : i.ediv 10000 ≤ 0 := by
    calc i.ediv 10000 ≤ (0 : ℤ).ediv 10000 := Int.ediv_le_ediv (by norm_num) hneg
    _ = 0 := Int.zero_ediv 10000
  omega

/-! ### Concrete evaluation helpers (shared by witnesses and counterexamples) -/

theorem aggregate_docs_example :
    DtSim.aggregate_docs toString [[2]] [[10001]] true
      = [("1", [(toString (max (2 : ℚ) (1 / 100)), "10001")])] := by
  have hdiv : ((10001 : ℤ).ediv 10000) = 1 := by decide
  have htos : toString (1 : ℤ) = "1" := by decide
  have htos2 : toString (10001 : ℤ) = "10001" := by decide
  unfold DtSim.aggregate_docs DtSim.docs_agg DtSim.dedup_pass DtSim.sort_score_ids
    DtSim.chainLeBool DtSim.min_diff_cutoff
  simp [pyDictAppend, hdiv, htos, htos2, List.insertionSort, List.orderedInsert]

theorem query_corpus_example :
    DtSim.query_corpus toString [[2]] [[10001]] 5
      = [{ doc_id := "1"
           id_score_tups := [("10001", toString (max (2 : ℚ) (1 / 100)))]
           score := toString (max (2 : ℚ) (1 / 100)) }] := by
  unfold DtSim.query_corpus
  rw [aggregate_docs_example]
  unfold DtSim.format_payload_docs DtSim.pyMinStr
  simp [List.insertionSort, List.orderedInsert]

theorem api_aggregate_example :
    DtSimApi.aggregate_docs [[0]] [[70001]] = [(7, [((1 : ℚ) / 10, 70001)])] := by
  have hdiv : ((70001 : ℤ).ediv 10000) = 7 := by decide
  unfold DtSimApi.aggregate_docs DtSimApi.min_diff_cutoff
  simp [pyDictAppend, hdiv]

theorem api_format_example :
    DtSimApi.format_payload toString (DtSimApi.aggregate_docs [[0]] [[70001]])
      = [{ score := toString ((1 : ℚ) / 10), sentence_id := "70001" }] := by
  have htos : toString (70001 : ℤ) = "70001" := by decide
  rw [api_aggregate_example]
  unfold DtSimApi.format_payload
  simp [htos, List.insertionSort, List.orderedInsert]

/-! ### Claims C10, C6, C5 -/

/-- Claim C10: every document entry of the dict returned by `aggregate_docs`
maps to a non-empty hit list (a key is only ever created together with the
append that follows it, and the dedup/sort passes permute or drop whole
lists), so `score_ids[0]` in `format_payload_singles` and `min(...)` in
`format_payload_docs` never see an empty list. -/
theorem aggregate_docs_hit_lists_nonempty (fmt : ℚ → String)
    (scores : List (List ℚ)) (faiss_ids : List (List ℤ)) (ru : Bool)
    (p : String × List DtSim.ScoreId)
    (hp : p ∈ DtSim.aggregate_docs fmt scores faiss_ids ru) : p.2 ≠ [] := by
  unfold DtSim.aggregate_docs at hp
  have hbase := DtSim.docs_agg_vals_ne_nil fmt
    ((scores.headD []).zip (faiss_ids.headD []))
  cases ru with
  | true =>
    rw [if_pos rfl] at hp
    obtain ⟨l₀, hl₀, hsort⟩ := DtSim.dedup_pass_src hp
    have hne : l₀ ≠ [] := hbase (p.1, l₀) hl₀
    rw [hsort]
    exact DtSim.sort_score_ids_ne_nil hne
  | false =>
    simp only [Bool.false_eq_true, if_neg, not_false_iff] at hp
    rcases List.mem_map.mp hp with ⟨dl, hdl, heq⟩
    have hne : dl.2 ≠ [] := hbase dl hdl
    have : p.2 = DtSim.sort_score_ids dl.2 := by rw [← heq]
    rw [this]
    exact DtSim.sort_score_ids_ne_nil hne

/-- Witness for C10. -/
theorem aggregate_docs_hit_lists_nonempty_witness :
    (("1", [(toString (max (2 : ℚ) (1 / 100)), "10001")])
        ∈ DtSim.aggregate_docs toString [[2]] [[10001]] true) ∧
      [(toString (max (2 : ℚ) (1 / 100)), "10001")] ≠ ([] : List DtSim.ScoreId) :=
  have hmem : ("1", [(toString (max (2 : ℚ) (1 / 100)), "10001")])
      ∈ DtSim.aggregate_docs toString [[2]] [[10001]] true := by
    rw [aggregate_docs_example]
    exact List.mem_singleton_self _
  ⟨hmem, aggregate_docs_hit_lists_nonempty toString [[2]] [[10001]] true _ hmem⟩

/-- Counterexample to claim C6 as stated: `dt_sim_api`'s `aggregate_docs`
processes `(score, id) = (0, 70001)` (id > 0) and appends score `0.1`, which
is not `max(0, 0.01) = 0.01`. -/
theorem api_floor_counterexample :
    DtSimApi.aggregate_docs [[0]] [[70001]] = [(7, [((1 : ℚ) / 10, 70001)])] ∧
      ((1 : ℚ) / 10) ≠ max 0 (1 / 100) :=
  ⟨api_aggregate_example, by norm_num⟩

/-- Claim C6 as amended: `dt_sim`'s `aggregate_docs` appends, for every
processed `(score, id)` pair with `id > 0`, the pair
`(str(max(score, 0.01)), str(id))` under the document key
`str(id // 10000)`; the `dt_sim_api` variant appends
`(max(score, 0.1), id)` — its floor is `0.1`, not `0.01`. -/
theorem aggregate_docs_score_floor (fmt : ℚ → String) (scores : List (List ℚ))
    (faiss_ids : List (List ℤ)) (si : ℚ × ℤ)
    (hmem : si ∈ (scores.headD []).zip (faiss_ids.headD [])) :
    (0 < si.2 →
        MemHit (DtSim.docs_agg fmt ((scores.headD []).zip (faiss_ids.headD [])))
          (toString (si.2.ediv 10000))
          (DtSim.min_diff_cutoff fmt si.1 (1 / 100), toString si.2)) ∧
      MemHit (DtSimApi.aggregate_docs scores faiss_ids)
        (si.2.ediv 10000) (DtSimApi.min_diff_cutoff si.1 (1 / 10), si.2) :=
  ⟨fun hpos => DtSim.docs_agg_floor fmt _ si hmem hpos,
    DtSimApi.api_aggregate_floor scores faiss_ids si hmem⟩

/-- Witness for the amended C6. -/
theorem aggregate_docs_score_floor_witness :
    (((2 : ℚ), (10001 : ℤ))
        ∈ (([[2]] : List (List ℚ)).headD []).zip (([[10001]] : List (List ℤ)).headD [])) ∧
      (0 : ℤ) < 10001 ∧
      MemHit (DtSim.docs_agg toString
          ((([[2]] : List (List ℚ)).headD []).zip (([[10001]] : List (List ℤ)).headD [])))
        (toString ((10001 : ℤ).ediv 10000))
        (DtSim.min_diff_cutoff toString 2 (1 / 100), toString (10001 : ℤ)) ∧
      MemHit (DtSimApi.aggregate_docs [[2]] [[10001]])
        ((10001 : ℤ).ediv 10000) (DtSimApi.min_diff_cutoff 2 (1 / 10), 10001) :=
  ⟨by decide, by decide,
    (aggregate_docs_score_floor toString [[2]] [[10001]] (2, 10001) (by decide)).1
      (by decide),
    (aggregate_docs_score_floor toString [[2]] [[10001]] (2, 10001) (by decide)).2⟩

/-- Claim C5: every id in the final payload is positive, and each id is
grouped under the document record whose `doc_id` is `str(id // 10000)` — for
the `dt_sim` `query_corpus` payload; the `dt_sim_api` `format_payload`
records carry no `doc_id`, but their `sentence_id`s are positive as well
(the document filter `int(doc_id) > 0` forces `id // 10000 >= 1`). -/
theorem payload_ids_positive_and_grouped :
    (∀ (fmt : ℚ → String) (scores : List (List ℚ)) (faiss_ids : List (List ℤ))
        (k : ℕ) (rec : DtSim.DocRecord),
      rec ∈ DtSim.query_corpus fmt scores faiss_ids k →
        ∀ p ∈ rec.id_score_tups,
          ∃ i : ℤ, 0 < i ∧ p.1 = toString i ∧ rec.doc_id = toString (i.ediv 10000)) ∧
      ∀ (fmt : ℚ → String) (scores : List (List ℚ)) (faiss_ids : List (List ℤ))
          (rec : DtSimApi.ApiHit),
        rec ∈ DtSimApi.format_payload fmt (DtSimApi.aggregate_docs scores faiss_ids) →
          ∃ i : ℤ, 0 < i ∧ rec.sentence_id = toString i := by
  constructor
  · intro fmt scores faiss_ids k rec hrec p hp
    unfold DtSim.query_corpus at hrec
    obtain ⟨dl, hdl, hrec⟩ := DtSim.format_payload_docs_src (List.mem_of_mem_take hrec)
    have htups : rec.id_score_tups = dl.2.map fun e => (e.2, e.1) := by rw [hrec]
    have hdoc : rec.doc_id = dl.1 := by rw [hrec]
    rcases List.mem_map.mp (htups ▸ hp) with ⟨e, he, hpe⟩
    have hhit := DtSim.aggregate_docs_entries hdl e he
    obtain ⟨si, _, hpos, hk, hx⟩ := DtSim.docs_agg_src hhit
    refine ⟨si.2, hpos, ?_, ?_⟩
    · have : p.1 = e.2 := by rw [← hpe]
      rw [this, hx]
    · rw [hdoc, hk]
  · intro fmt scores faiss_ids rec hrec
    unfold DtSimApi.format_payload at hrec
    have hrec' := (List.perm_insertionSort
      (fun a b : DtSimApi.ApiHit => PyLe a.score b.score) _).mem_iff.mp hrec
    rcases DtSimApi.api_fold_src fmt _ [] rec hrec' with h | ⟨dl, hdl, hpos, e, he, heq⟩
    · cases h
    · have hhit : MemHit (DtSimApi.aggregate_docs scores faiss_ids) dl.1 e :=
        ⟨dl.2, hdl, he⟩
      obtain ⟨si, _, hk, hx⟩ := DtSimApi.api_aggregate_src hhit
      have hipos : 0 < si.2 := pos_of_ediv_10000_pos (hk ▸ hpos)
      refine ⟨si.2, hipos, ?_⟩
      have h2 : e.2 = si.2 := by rw [hx]
      rw [heq, h2]

/-- Witness for C5: both halves exercised on singleton search results. -/
theorem payload_ids_positive_and_grouped_witness :
    (({ doc_id := "1"
        id_score_tups := [("10001", toString (max (2 : ℚ) (1 / 100)))]
        score := toString (max (2 : ℚ) (1 / 100)) } : DtSim.DocRecord)
          ∈ DtSim.query_corpus toString [[2]] [[10001]] 5) ∧
      (∃ i : ℤ, 0 < i ∧ ("10001", toString (max (2 : ℚ) (1 / 100))).1 = toString i ∧
        ({ doc_id := "1"
           id_score_tups := [("10001", toString (max (2 : ℚ) (1 / 100)))]
           score := toString (max (2 : ℚ) (1 / 100)) } : DtSim.DocRecord).doc_id
          = toString (i.ediv 10000)) ∧
      (({ score := toString ((1 : ℚ) / 10), sentence_id := "70001" } : DtSimApi.ApiHit)
          ∈ DtSimApi.format_payload toString (DtSimApi.aggregate_docs [[0]] [[70001]])) ∧
      ∃ i : ℤ, 0 < i
        ∧ ({ score := toString ((1 : ℚ) / 10), sentence_id := "70001" }
            : DtSimApi.ApiHit).sentence_id = toString i :=
  have hmem1 :
      ({ doc_id := "1",
         id_score_tups := [("10001", toString (max (2 : ℚ) (1 / 100)))],
         score := toString (max (2 : ℚ) (1 / 100)) } : DtSim.DocRecord)
        ∈ DtSim.query_corpus toString [[2]] [[10001]] 5 := by
    rw [query_corpus_example]
    exact List.mem_singleton_self _
  have hmem2 : ({ score := toString ((1 : ℚ) / 10), sentence_id := "70001" }
      : DtSimApi.ApiHit)
        ∈ DtSimApi.format_payload toString (DtSimApi.aggregate_docs [[0]] [[70001]]) := by
    rw [api_format_example]
    exact List.mem_singleton_self _
  ⟨hmem1,
    payload_ids_positive_and_grouped.1 toString [[2]] [[10001]] 5 _ hmem1
      ("10001", toString (max (2 : ℚ) (1 / 100))) (List.mem_singleton_self _),
    hmem2,
    payload_ids_positive_and_grouped.2 toString [[0]] [[70001]] _ hmem2⟩

end DTS
